import Mathlib

/-!
Shallow embedding of the MyDb in-process tabular store (src/main.go,
package MyDb, version 1.0.2): the data model, the CRUD engine, persistence
at the record level, the lock-acquisition discipline, and the text command
interpreter.

Embedding conventions:
* A Go `map[string]string` is embedded as an association list with
  first-binding lookup defaulting to `""` (the Go zero value for `string`).
  The API never creates duplicate keys, so this is faithful.
* Go's in-place mutation is embedded as state passing: each operation that
  mutates the receiver returns the resulting `Database` together with the Go
  function's `error` return value (`none` embeds a `nil` error).
* The `encoding/csv` codec and the file system are external collaborators;
  `Save` / `SelectTable` are embedded at the record level, i.e. as the exact
  sequence of records handed to (read from) the codec.
* The mutexes are irrelevant to sequential functional behaviour and are
  modelled separately as the sequence of Lock/Unlock events each operation
  performs, in program order (see `LockEv` below).
-/

/-- A row, Go `map[string]string` (src/main.go line 16). -/
abbrev Row := List (String × String)

/-- A condition map for `Delete` / `matchConditions` (Go `map[string]string`). -/
abbrev CondMap := List (String × String)

/-- Go map read `m[k]`: the binding of `k`, or the zero value `""` if absent. -/
def rowGet (m : Row) (k : String) : String :=
  match m.find? (fun p => decide (p.1 = k)) with
  | some p => p.2
  | none => ""

/-- Go map write `m[k] = v`: overwrite the binding of `k` if present, else add it. -/
def rowSet : Row → String → String → Row
  | [], k, v => [(k, v)]
  | p :: rest, k, v => if p.1 = k then (k, v) :: rest else p :: rowSet rest k v

/-- The key list of a row. -/
def rowKeys (m : Row) : List String := m.map Prod.fst

/-- Table (src/main.go lines 14-18): ordered column names and ordered rows.
The `sync.Mutex` field is modelled separately (see `LockEv`). -/
structure Table where
  Columns : List String
  Rows : List Row
deriving Repr, DecidableEq

/-- Database (src/main.go lines 21-25): a name and a map from table names to
tables, embedded as an association list. -/
structure Database where
  Name : String
  Tables : List (String × Table)
deriving Repr, DecidableEq

/-- NewDatabase (src/main.go lines 28-33). -/
def NewDatabase (name : String) : Database :=
  { Name := name, Tables := [] }

/-- Go map read `db.Tables[name]` (first binding; the API keeps keys unique). -/
def dbGetTable (db : Database) (name : String) : Option Table :=
  (db.Tables.find? (fun p => decide (p.1 = name))).map (fun p => p.2)

/-- Mutation of the table stored under `name` (Go writes through the `*Table`
pointer held in the map). -/
def dbSetTable (db : Database) (name : String) (t : Table) : Database :=
  { db with Tables := db.Tables.map (fun p => if p.1 = name then (name, t) else p) }

/-- Go map insert `db.Tables[name] = &Table{...}` for a fresh `name`. -/
def dbAddTable (db : Database) (name : String) (t : Table) : Database :=
  { db with Tables := db.Tables ++ [(name, t)] }

/-- The error values produced by the engine, one constructor per `fmt.Errorf`
message kind in src/main.go, with the interpolated data as payload. -/
inductive DbError where
  | invalidTableName (name : String)
  | invalidColumnName (col : String)
  | tableAlreadyExists (name : String)
  | tableDoesNotExist (name : String)
  | columnDoesNotExist (col tableName : String)
  | invalidCommand (cmd : String)
  | invalidDelete (cmd : String)
  | invalidUpdate (cmd : String)
  | invalidGet (cmd : String)
  | invalidInsert (cmd : String)
  | invalidCreate (cmd : String)
  | valueCountMismatch (tableName : String)
  | unknownCommand (cmd : String)
  | fileNotFound (tableName : String)
  | decodeError (tableName : String)
deriving Repr, DecidableEq

/-- Character class `[a-zA-Z_]` of the identifier regex, by code point. -/
def isNameStart (c : Char) : Bool :=
  (65 ≤ c.toNat && c.toNat ≤ 90) || (97 ≤ c.toNat && c.toNat ≤ 122) || c.toNat = 95

/-- Character class `[a-zA-Z0-9_]`, by code point. -/
def isNameChar (c : Char) : Bool :=
  isNameStart c || (48 ≤ c.toNat && c.toNat ≤ 57)

/-- isValidName (src/main.go lines 264-267): the anchored regex
`^[a-zA-Z_][a-zA-Z0-9_]*$` -- a name start character followed by name
characters, and the empty string does not match. -/
def isValidName (s : String) : Bool :=
  match s.data with
  | [] => false
  | c :: cs => isNameStart c && cs.all isNameChar

/-- contains (src/main.go lines 270-277): linear scan for a string. -/
def containsStr (slice : List String) (str : String) : Bool :=
  slice.any (fun v => decide (v = str))

/-- CreateTable (src/main.go lines 36-58): validate the table name, then each
column name in order, then check for an existing table, then insert an empty
table. The returned pair is (database after the call, Go error value). -/
def CreateTable (db : Database) (name : String) (columns : List String) :
    Database × Option DbError :=
  if !isValidName name then
    (db, some (.invalidTableName name))
  else
    match columns.find? (fun col => !isValidName col) with
    | some col => (db, some (.invalidColumnName col))
    | none =>
      if (dbGetTable db name).isSome then
        (db, some (.tableAlreadyExists name))
      else
        (dbAddTable db name { Columns := columns, Rows := [] }, none)

/-- InsertInto (src/main.go lines 61-83): look the table up, validate that
every key of `data` is a declared column (error names the offending column),
then append the row at the end. -/
def InsertInto (db : Database) (tableName : String) (data : Row) :
    Database × Option DbError :=
  match dbGetTable db tableName with
  | none => (db, some (.tableDoesNotExist tableName))
  | some table =>
    match data.find? (fun kv => !containsStr table.Columns kv.1) with
    | some kv => (db, some (.columnDoesNotExist kv.1 tableName))
    | none =>
      (dbSetTable db tableName { table with Rows := table.Rows ++ [data] }, none)

/-- matchConditions (src/main.go lines 390-397): a row matches iff for every
condition key the stored value (Go zero value `""` when the key is absent)
equals the expected value, by exact string equality. -/
def matchConditions (row : Row) (conditions : CondMap) : Bool :=
  conditions.all (fun kv => decide (rowGet row kv.1 = kv.2))

/-- Delete (src/main.go lines 87-119): look the table up, then replace the row
sequence by the subsequence of rows that do not match all conditions. -/
def Delete (db : Database) (tableName : String) (conditions : CondMap) :
    Database × Option DbError :=
  match dbGetTable db tableName with
  | none => (db, some (.tableDoesNotExist tableName))
  | some table =>
    (dbSetTable db tableName
      { table with Rows := table.Rows.filter (fun row => !matchConditions row conditions) },
     none)

/-- The per-row assignment loop of UpdateData: `for key, value := range data
{ row[key] = value }`. -/
def updateRow (row : Row) (data : Row) : Row :=
  data.foldl (fun r kv => rowSet r kv.1 kv.2) row

/-- UpdateData (src/main.go lines 124-154): look the table up, validate every
key of `data` against the declared columns, then overwrite the fields named in
`data` on exactly the rows satisfying `condition`. -/
def UpdateData (db : Database) (tableName : String) (condition : Row → Bool)
    (data : Row) : Database × Option DbError :=
  match dbGetTable db tableName with
  | none => (db, some (.tableDoesNotExist tableName))
  | some table =>
    match data.find? (fun kv => !containsStr table.Columns kv.1) with
    | some kv => (db, some (.columnDoesNotExist kv.1 tableName))
    | none =>
      (dbSetTable db tableName
        { table with Rows := table.Rows.map (fun row =>
            if condition row then updateRow row data else row) },
       none)

/-- SearchRows (src/main.go lines 157-178): the ordered subsequence of rows
satisfying the predicate; no mutation. -/
def SearchRows (db : Database) (tableName : String) (condition : Row → Bool) :
    Except DbError (List Row) :=
  match dbGetTable db tableName with
  | none => .error (.tableDoesNotExist tableName)
  | some table => .ok (table.Rows.filter condition)

/-- The records Save hands to the csv writer for one table (src/main.go lines
237-254): the header is the column list, then one record per row, each value
read with the Go zero value `""` for a missing field. -/
def saveTableRecords (t : Table) : List (List String) :=
  t.Columns :: t.Rows.map (fun row => t.Columns.map (fun col => rowGet row col))

/-- Save (src/main.go lines 221-261) at the record level: the file system
state it produces, one record list per table file (the csv codec and the file
system are external collaborators). -/
def Save (db : Database) : List (String × List (List String)) :=
  db.Tables.map (fun p => (p.1, saveTableRecords p.2))

/-- The row-decoding loop of SelectTable (src/main.go lines 205-213):
`for i, col := range columns { mappedRow[col] = row[i] }`. -/
def zipToRow (columns vals : List String) : Row :=
  (columns.zip vals).foldl (fun r p => rowSet r p.1 p.2) []

/-- SelectTable (src/main.go lines 181-218) at the record level: read the
table's file, decode the first record as the columns, the remaining records
(the csv reader requires every record to have the header's field count) as
rows zipped positionally against the columns. -/
def SelectTable (files : List (String × List (List String))) (tableName : String) :
    Except DbError Table :=
  match files.find? (fun p => decide (p.1 = tableName)) with
  | none => .error (.fileNotFound tableName)
  | some p =>
    match p.2 with
    | [] => .error (.decodeError tableName)
    | columns :: rest =>
      if rest.all (fun r => r.length = columns.length) then
        .ok { Columns := columns, Rows := rest.map (fun vals => zipToRow columns vals) }
      else
        .error (.decodeError tableName)

/-! Lock model.

Each operation's sequence of `Lock()` / `Unlock()` calls in program order,
taken from the source (a `defer ... Unlock()` runs at function exit, in
last-in-first-out order). `sync.Mutex` is not reentrant: acquiring a mutex
already held by the same execution blocks forever. -/

/-- The two lock kinds: the database-level mutex and a table-level mutex. -/
inductive LockId where
  | dbL : LockId
  | tblL : String → LockId
deriving Repr, DecidableEq

/-- A lock event: acquire or release of one mutex. -/
inductive LockEv where
  | acq : LockId → LockEv
  | rel : LockId → LockEv
deriving Repr, DecidableEq

/-- Lock/Unlock sequence of Database.Delete (src/main.go lines 87-119) on the
path where the table exists: db.mu.Lock, table.mu.Lock, then the deferred
unlocks in reverse order. -/
def deleteLockTrace (t : String) : List LockEv :=
  [.acq .dbL, .acq (.tblL t), .rel (.tblL t), .rel .dbL]

/-- Lock/Unlock sequence of Database.Command dispatching a DELETE
(src/main.go lines 281-305): Command locks db.mu on entry, then calls
db.Delete, whose own sequence is nested inside, then the deferred unlock. -/
def commandDeleteLockTrace (t : String) : List LockEv :=
  [.acq .dbL] ++ deleteLockTrace t ++ [.rel .dbL]

/-- Lock/Unlock sequence of Database.SearchRows (src/main.go lines 157-178)
on the path where the table exists: db.mu.Lock, table.mu.Lock, then the
deferred unlocks in reverse order. -/
def searchRowsLockTrace (t : String) : List LockEv :=
  [.acq .dbL, .acq (.tblL t), .rel (.tblL t), .rel .dbL]

/-- Lock/Unlock sequence of Database.Command dispatching a GET
(src/main.go lines 281-283 and 320-335): Command locks db.mu on entry, then
calls db.SearchRows, whose own sequence is nested inside, then the deferred
unlock.  The db.mu acquisition of SearchRows happens before SearchRows checks
whether the table exists. -/
def commandGetLockTrace (t : String) : List LockEv :=
  [.acq .dbL] ++ searchRowsLockTrace t ++ [.rel .dbL]

/-- Does executing the event sequence ever acquire a lock the execution
already holds (which blocks forever on Go's non-reentrant `sync.Mutex`)? -/
def selfBlocks : List LockId → List LockEv → Bool
  | _, [] => false
  | held, .acq l :: rest =>
    if held.contains l then true else selfBlocks (l :: held) rest
  | held, .rel l :: rest => selfBlocks (held.erase l) rest

/-! The command interpreter (src/main.go lines 281-397).

The regular patterns used by Command are simple enough to embed directly:
each is a literal keyword, a `(\w+)` capture (a maximal nonempty run of word
characters), another literal, and a greedy `(.+)` capture. `FindStringSubmatch`
returns the leftmost match, so each matcher is tried at every start position
in order. All matching is performed on a lowercased copy of the whitespace-
normalized command, as in the source. -/

/-- RE2 `\s`, the class `[\t\n\f\r ]`, by code point. -/
def isSpaceRE (c : Char) : Bool :=
  c.toNat = 9 || c.toNat = 10 || c.toNat = 12 || c.toNat = 13 || c.toNat = 32

/-- The ASCII part of `unicode.IsSpace` used by `strings.TrimSpace`:
`[\t\n\v\f\r ]`, by code point. -/
def isSpaceTrim (c : Char) : Bool :=
  c.toNat = 9 || c.toNat = 10 || c.toNat = 11 || c.toNat = 12 || c.toNat = 13 ||
    c.toNat = 32

/-- Go `strings.ToLower` on one character (ASCII range; the commands' syntax is
ASCII): map `A`..`Z` (code 65..90) to `a`..`z` (code 97..122). -/
def toLowerChar (c : Char) : Char :=
  if 65 ≤ c.toNat ∧ c.toNat ≤ 90 then Char.ofNat (c.toNat + 32) else c

/-- Go `strings.ToLower` on a list of characters. -/
def toLowerChars (s : List Char) : List Char :=
  s.map toLowerChar

/-- Replacement of every whitespace run by one space, the
`ReplaceAllString` call of src/main.go line 286: collapse every maximal run of `\s` characters to a single space. The Boolean
records whether the previous character was part of a space run. -/
def collapseAux : Bool → List Char → List Char
  | _, [] => []
  | prevSpace, c :: cs =>
    if isSpaceRE c then
      if prevSpace then collapseAux true cs else ' ' :: collapseAux true cs
    else
      c :: collapseAux false cs

/-- Whitespace collapsing of the command (src/main.go line 286). -/
def collapseSpaces (s : List Char) : List Char :=
  collapseAux false s

/-- Go `strings.TrimSpace` (src/main.go line 287). -/
def goTrim (s : List Char) : List Char :=
  ((s.dropWhile isSpaceTrim).reverse.dropWhile isSpaceTrim).reverse

/-- The normalized command: collapse whitespace runs, then trim. -/
def normCommand (cmd : String) : List Char :=
  goTrim (collapseSpaces cmd.data)

/-- Go `strings.SplitN(command, " ", 2)`: the part before the first space and
the rest; `none` when there is no space (fewer than two parts). -/
def splitFirstSpace : List Char → Option (List Char × List Char)
  | [] => none
  | c :: cs =>
    if c = ' ' then some ([], cs)
    else (splitFirstSpace cs).map (fun p => (c :: p.1, p.2))

/-- RE2 `\w`, the class `[0-9A-Za-z_]` (same class as `isNameChar`). -/
def isWordChar (c : Char) : Bool :=
  isNameChar c

/-- Match a literal: `some rest` iff the text starts with the literal. -/
def dropLit : List Char → List Char → Option (List Char)
  | [], s => some s
  | _ :: _, [] => none
  | l :: ls, c :: cs => if c = l then dropLit ls cs else none

/-- Try a matcher at every start position, leftmost first (the semantics of
`FindStringSubmatch` for an unanchored pattern). -/
def findMap (f : List Char → Option α) : List Char → Option α
  | [] => f []
  | c :: cs =>
    match f (c :: cs) with
    | some r => some r
    | none => findMap f cs

/-- Match `<kw1>(\w+)<kw2>(.+)` at the current position: the literal `kw1`,
then a maximal nonempty run of word characters, then the literal `kw2`, then
a nonempty remainder which the greedy `(.+)` captures whole. (A shorter word
run cannot help: it would have to be followed by `kw2`, whose first character
is never a word character in the patterns used.) -/
def matchAtKWR (kw1 kw2 s : List Char) : Option (List Char × List Char) :=
  match dropLit kw1 s with
  | none => none
  | some r1 =>
    let w := r1.takeWhile isWordChar
    let r2 := r1.dropWhile isWordChar
    if w.isEmpty then none
    else
      match dropLit kw2 r2 with
      | none => none
      | some r3 => if r3.isEmpty then none else some (w, r3)

/-- Leftmost match of `<kw1>(\w+)<kw2>(.+)` anywhere in the text. -/
def findKWR (kw1 kw2 s : List Char) : Option (List Char × List Char) :=
  findMap (matchAtKWR kw1 kw2) s

/-- All decompositions `s = pre ++ sep ++ post`, in order of increasing
`pre` length. -/
def allSplits (sep s : List Char) : List (List Char × List Char) :=
  (List.range (s.length + 1)).filterMap (fun i =>
    if sep.isPrefixOf (s.drop i) then some (s.take i, s.drop (i + sep.length))
    else none)

/-- Match `update (\w+) set (.+) where (.+)` at the current position.  The
first `(.+)` is greedy, so among the decompositions of the text after ` set `
at an occurrence of ` where ` with both sides nonempty, the one with the
longest prefix wins. -/
def matchAtUpd (s : List Char) : Option (List Char × List Char × List Char) :=
  match dropLit "update ".data s with
  | none => none
  | some r1 =>
    let w := r1.takeWhile isWordChar
    let r2 := r1.dropWhile isWordChar
    if w.isEmpty then none
    else
      match dropLit " set ".data r2 with
      | none => none
      | some r3 =>
        match ((allSplits " where ".data r3).filter
            (fun p => !p.1.isEmpty && !p.2.isEmpty)).getLast? with
        | none => none
        | some p => some (w, p.1, p.2)

/-- Leftmost match of the UPDATE pattern anywhere in the text. -/
def findUpd (s : List Char) : Option (List Char × List Char × List Char) :=
  findMap matchAtUpd s

/-- Go `strings.Split(s, sep)` for a nonempty separator, via a skip counter:
when the separator is found, emit the accumulated segment and skip the remaining
`sep.length - 1` separator characters. -/
def splitSepAux (sep : List Char) : List Char → List Char → Nat → List (List Char)
  | [], acc, _ => [acc.reverse]
  | _ :: cs, acc, Nat.succ k => splitSepAux sep cs acc k
  | c :: cs, acc, 0 =>
    if sep.isPrefixOf (c :: cs) then
      acc.reverse :: splitSepAux sep cs [] (sep.length - 1)
    else
      splitSepAux sep cs (c :: acc) 0

/-- Go `strings.Split(s, sep)` (used with `" and "` and `","`). -/
def splitSepGo (sep s : List Char) : List (List Char) :=
  splitSepAux sep s [] 0

/-- Go `strings.SplitN(pair, "=", 2)`: the parts around the first `=`, `none`
when the pair contains no `=` (then parseConditions skips the pair). -/
def splitFirstEq : List Char → Option (List Char × List Char)
  | [] => none
  | c :: cs =>
    if c = '=' then some ([], cs)
    else (splitFirstEq cs).map (fun p => (c :: p.1, p.2))

/-- parseConditions (src/main.go lines 377-387): split on `" and "`, split
each pair at the first `=`, trim both sides, and insert into the map. -/
def parseConditions (condStr : List Char) : CondMap :=
  (splitSepGo " and ".data condStr).foldl (fun conds pair =>
    match splitFirstEq pair with
    | some kv => rowSet conds (String.mk (goTrim kv.1)) (String.mk (goTrim kv.2))
    | none => conds) []

/-- An error produced inside the command dispatch: either a ready error value,
or one of the `invalid ... command: %s` errors, which interpolate the
(original-case) normalized command and are therefore completed by `Command`
itself. -/
inductive CmdErr where
  | raw : DbError → CmdErr
  | withCmd : (String → DbError) → CmdErr

/-- The visible outcome of one Command call: the Go `error` return value
(`none` embeds `nil`, i.e. success), the database state after the call, and
the row sequence passed to `fmt.Println` in the get branch, if any. -/
structure CommandResult where
  ret : Option DbError
  db : Database
  printed : Option (List Row)
deriving Repr, DecidableEq

/-- The dispatch outcome before the raw command is interpolated into
`invalid ... command` error messages. -/
structure DispatchOut where
  err : Option CmdErr
  db : Database
  printed : Option (List Row)

/-- The switch body of Command (src/main.go lines 296-373), acting on the
lowercased action keyword and the lowercased normalized command, which is all
the source's branches consult apart from the raw command interpolated into
their `invalid ... command` error messages. -/
def commandDispatch (db : Database) (action lowered : List Char) : DispatchOut :=
  if action = "delete".data then
    match findKWR "delete from ".data " where ".data lowered with
    | none => ⟨some (.withCmd DbError.invalidDelete), db, none⟩
    | some p =>
      let r := Delete db (String.mk p.1) (parseConditions p.2)
      ⟨r.2.map .raw, r.1, none⟩
  else if action = "update".data then
    match findUpd lowered with
    | none => ⟨some (.withCmd DbError.invalidUpdate), db, none⟩
    | some p =>
      let data := parseConditions p.2.1
      let conditions := parseConditions p.2.2
      let r := UpdateData db (String.mk p.1)
        (fun row => matchConditions row conditions) data
      ⟨r.2.map .raw, r.1, none⟩
  else if action = "get".data ∨ action = "select".data then
    match findKWR "get from ".data " where ".data lowered with
    | none => ⟨some (.withCmd DbError.invalidGet), db, none⟩
    | some p =>
      let conditions := parseConditions p.2
      match SearchRows db (String.mk p.1)
          (fun row => matchConditions row conditions) with
      | .error e => ⟨some (.raw e), db, none⟩
      | .ok rows => ⟨none, db, some rows⟩
  else if action = "insert".data then
    match findKWR "insert to ".data " ".data lowered with
    | none => ⟨some (.withCmd DbError.invalidInsert), db, none⟩
    | some p =>
      let values := splitSepGo ",".data p.2
      match dbGetTable db (String.mk p.1) with
      | some table =>
        if values.length ≠ table.Columns.length then
          ⟨some (.raw (.valueCountMismatch (String.mk p.1))), db, none⟩
        else
          let valuesMap := (table.Columns.zip values).foldl
            (fun m q => rowSet m q.1 (String.mk (goTrim q.2))) []
          let r := InsertInto db (String.mk p.1) valuesMap
          ⟨r.2.map .raw, r.1, none⟩
      | none => ⟨some (.raw (.tableDoesNotExist (String.mk p.1))), db, none⟩
  else if action = "create".data then
    match findKWR "create table ".data " has ".data lowered with
    | none => ⟨some (.withCmd DbError.invalidCreate), db, none⟩
    | some p =>
      let columns := (splitSepGo ",".data p.2).map (fun c => String.mk (goTrim c))
      let r := CreateTable db (String.mk p.1) columns
      ⟨r.2.map .raw, r.1, none⟩
  else ⟨some (.withCmd DbError.unknownCommand), db, none⟩

/-- Complete a dispatch error by interpolating the raw normalized command. -/
def resolveErr (cmdStr : String) : CmdErr → DbError
  | .raw e => e
  | .withCmd f => f cmdStr

/-- Command (src/main.go lines 281-374): normalize whitespace, split off the
action keyword (fewer than two parts is an invalid command), lowercase the
keyword, and dispatch on it, each branch matching its pattern against the
lowercased whole command. -/
def Command (db : Database) (cmd : String) : CommandResult :=
  let command := normCommand cmd
  match splitFirstSpace command with
  | none => ⟨some (.invalidCommand (String.mk command)), db, none⟩
  | some parts =>
    let out := commandDispatch db (toLowerChars parts.1) (toLowerChars command)
    ⟨out.err.map (resolveErr (String.mk command)), out.db, out.printed⟩

/-! Helper lemmas. -/

theorem rowGet_cons (p : String × String) (rest : Row) (k : String) :
    rowGet (p :: rest) k = if p.1 = k then p.2 else rowGet rest k := by
  by_cases h : p.1 = k <;> simp [rowGet, List.find?_cons, h]

theorem rowGet_nil (k : String) : rowGet [] k = "" := rfl

theorem rowGet_rowSet_self (r : Row) (k v : String) :
    rowGet (rowSet r k v) k = v := by
  induction r with
  | nil => simp [rowSet, rowGet_cons]
  | cons p rest ih =>
    by_cases h : p.1 = k
    · simp [rowSet, h, rowGet_cons]
    · simp [rowSet, h, rowGet_cons, ih]

theorem rowGet_rowSet_ne (r : Row) (k v c : String) (hc : c ≠ k) :
    rowGet (rowSet r k v) c = rowGet r c := by
  have hkc : k ≠ c := fun h => hc h.symm
  induction r with
  | nil => simp [rowSet, rowGet_cons, rowGet_nil, hkc]
  | cons p rest ih =>
    by_cases h : p.1 = k
    · rw [rowSet, if_pos h, rowGet_cons, rowGet_cons, if_neg, if_neg]
      · rw [h]; exact hkc
      · exact hkc
    · simp [rowSet, h, rowGet_cons, ih]

theorem containsStr_iff (l : List String) (s : String) :
    containsStr l s = true ↔ s ∈ l := by
  simp [containsStr, List.any_eq_true]

theorem find?_set_list (l : List (String × Table)) (n : String) (t : Table)
    (h : (l.find? (fun p => decide (p.1 = n))).isSome = true) :
    (l.map (fun p => if p.1 = n then (n, t) else p)).find? (fun p => decide (p.1 = n))
      = some (n, t) := by
  induction l with
  | nil => simp at h
  | cons p rest ih =>
    by_cases hp : p.1 = n
    · simp [hp]
    · rw [List.find?_cons_of_neg _ (by simp [hp])] at h
      rw [List.map_cons, if_neg hp, List.find?_cons_of_neg _ (by simp [hp])]
      exact ih h

theorem dbGetTable_isSome_of_eq (db : Database) (n : String) (t0 : Table)
    (h : dbGetTable db n = some t0) :
    (db.Tables.find? (fun p => decide (p.1 = n))).isSome = true := by
  unfold dbGetTable at h
  cases hf : db.Tables.find? (fun p => decide (p.1 = n)) with
  | none => rw [hf] at h; simp at h
  | some p => rfl

theorem dbGetTable_dbSetTable_self (db : Database) (n : String) (t t0 : Table)
    (h : dbGetTable db n = some t0) :
    dbGetTable (dbSetTable db n t) n = some t := by
  unfold dbGetTable dbSetTable
  rw [find?_set_list db.Tables n t (dbGetTable_isSome_of_eq db n t0 h)]
  rfl

theorem dbSetTable_dbSetTable (db : Database) (n : String) (t1 t2 : Table) :
    dbSetTable (dbSetTable db n t1) n t2 = dbSetTable db n t2 := by
  have hfun : ((fun p : String × Table => if p.1 = n then (n, t2) else p) ∘
      (fun p => if p.1 = n then (n, t1) else p))
      = (fun p : String × Table => if p.1 = n then (n, t2) else p) := by
    funext p
    by_cases hp : p.1 = n <;> simp [hp]
  simp only [dbSetTable, List.map_map, hfun]

/-- C1: for every table present in the database and every condition map,
Delete removes exactly the rows matching all conditions (a row matches iff
every condition key's stored value equals the expected value by exact,
case-sensitive string equality), preserves the relative order of survivors
(the result is a sublist of the original row sequence), and is idempotent:
deleting again with the same conditions changes nothing further. -/
theorem C1_delete_semantics (db : Database) (tn : String) (conds : CondMap)
    (tbl : Table) (h : dbGetTable db tn = some tbl) :
    Delete db tn conds
      = (dbSetTable db tn
          { tbl with Rows := tbl.Rows.filter (fun r => !matchConditions r conds) },
         none)
    ∧ (tbl.Rows.filter (fun r => !matchConditions r conds)).Sublist tbl.Rows
    ∧ (∀ r, r ∈ tbl.Rows.filter (fun r => !matchConditions r conds)
        ↔ r ∈ tbl.Rows ∧ matchConditions r conds = false)
    ∧ Delete (Delete db tn conds).1 tn conds = Delete db tn conds := by
  have heq : Delete db tn conds
      = (dbSetTable db tn
          { tbl with Rows := tbl.Rows.filter (fun r => !matchConditions r conds) },
         none) := by
    simp [Delete, h]
  refine ⟨heq, List.filter_sublist _, ?_, ?_⟩
  · intro r
    simp [List.mem_filter]
  · rw [heq]
    have hget := dbGetTable_dbSetTable_self db tn
      { tbl with Rows := tbl.Rows.filter (fun r => !matchConditions r conds) } tbl h
    simp only [Delete, hget, List.filter_filter]
    rw [dbSetTable_dbSetTable]
    simp

/-- C9: the empty condition map matches every row, so Delete with no
conditions empties the table's row sequence and empty-condition search
returns every row. -/
theorem C9_empty_condition_matches_all (db : Database) (tn : String)
    (tbl : Table) (row : Row) (h : dbGetTable db tn = some tbl) :
    matchConditions row [] = true
    ∧ Delete db tn [] = (dbSetTable db tn { tbl with Rows := [] }, none)
    ∧ SearchRows db tn (fun r => matchConditions r []) = .ok tbl.Rows := by
  refine ⟨rfl, ?_, ?_⟩
  · simp [Delete, h, matchConditions]
  · simp [SearchRows, h, matchConditions]

/-! Concrete witness data. -/

/-- A concrete table used by witnesses: two columns, two rows, the second row
missing field `b`. -/
def tblW : Table :=
  { Columns := ["a", "b"], Rows := [[("a", "1"), ("b", "x")], [("a", "2")]] }

/-- A concrete database holding `tblW` under name `t`. -/
def dbW : Database :=
  { Name := "d", Tables := [("t", tblW)] }

/-- Witness for C1 at a concrete table and condition map. -/
theorem C1_delete_semantics_witness :
    dbGetTable dbW "t" = some tblW
    ∧ (Delete dbW "t" [("a", "1")]
        = (dbSetTable dbW "t"
            { tblW with Rows := tblW.Rows.filter (fun r => !matchConditions r [("a", "1")]) },
           none)
      ∧ (tblW.Rows.filter (fun r => !matchConditions r [("a", "1")])).Sublist tblW.Rows
      ∧ (∀ r, r ∈ tblW.Rows.filter (fun r => !matchConditions r [("a", "1")])
          ↔ r ∈ tblW.Rows ∧ matchConditions r [("a", "1")] = false)
      ∧ Delete (Delete dbW "t" [("a", "1")]).1 "t" [("a", "1")]
          = Delete dbW "t" [("a", "1")]) :=
  ⟨by decide, C1_delete_semantics dbW "t" [("a", "1")] tblW (by decide)⟩

/-- Witness for C9 at a concrete table. -/
theorem C9_empty_condition_matches_all_witness :
    dbGetTable dbW "t" = some tblW
    ∧ (matchConditions [("a", "1")] [] = true
      ∧ Delete dbW "t" [] = (dbSetTable dbW "t" { tblW with Rows := [] }, none)
      ∧ SearchRows dbW "t" (fun r => matchConditions r []) = .ok tblW.Rows) :=
  ⟨by decide, C9_empty_condition_matches_all dbW "t" tblW [("a", "1")] (by decide)⟩

/-- C3: a string failing the identifier grammar `[a-zA-Z_][a-zA-Z0-9_]*` as
the table name, or appearing among the columns, makes CreateTable fail with
the corresponding invalid-identifier error and insert no table; when the name
and all columns match the grammar and no table of that name exists,
CreateTable succeeds and inserts the (empty) table. -/
theorem C3_identifier_validation (db : Database) (name : String)
    (cols : List String) :
    (isValidName name = false →
      CreateTable db name cols = (db, some (.invalidTableName name)))
    ∧ (isValidName name = true → (∃ s ∈ cols, isValidName s = false) →
      (CreateTable db name cols).1 = db
      ∧ ∃ c ∈ cols, isValidName c = false
          ∧ (CreateTable db name cols).2 = some (.invalidColumnName c))
    ∧ (isValidName name = true → (∀ c ∈ cols, isValidName c = true) →
      dbGetTable db name = none →
      CreateTable db name cols
        = (dbAddTable db name { Columns := cols, Rows := [] }, none)) := by
  refine ⟨?_, ?_, ?_⟩
  · intro hn
    simp [CreateTable, hn]
  · intro hn hex
    have hsome : (cols.find? (fun col => !isValidName col)).isSome = true := by
      rw [List.find?_isSome]
      obtain ⟨s, hs, hsv⟩ := hex
      exact ⟨s, hs, by simp [hsv]⟩
    obtain ⟨c, hc⟩ := Option.isSome_iff_exists.mp hsome
    have hcv : isValidName c = false := by
      have := List.find?_some hc
      simpa using this
    have hcm : c ∈ cols := List.mem_of_find?_eq_some hc
    refine ⟨?_, c, hcm, hcv, ?_⟩ <;> simp [CreateTable, hn, hc]
  · intro hn hall hnone
    have hfind : cols.find? (fun col => !isValidName col) = none := by
      rw [List.find?_eq_none]
      intro c hc
      simp [hall c hc]
    simp [CreateTable, hn, hfind, hnone]

/-- Witness for C3: an invalid name, an invalid column, and a valid creation. -/
theorem C3_identifier_validation_witness :
    (isValidName "9bad" = false →
      CreateTable (NewDatabase "d") "9bad" ["a"]
        = (NewDatabase "d", some (.invalidTableName "9bad")))
    ∧ (isValidName "users" = true → (∃ s ∈ ["ok", "b d"], isValidName s = false) →
      (CreateTable (NewDatabase "d") "users" ["ok", "b d"]).1 = NewDatabase "d"
      ∧ ∃ c ∈ ["ok", "b d"], isValidName c = false
          ∧ (CreateTable (NewDatabase "d") "users" ["ok", "b d"]).2
              = some (.invalidColumnName c))
    ∧ (isValidName "users" = true → (∀ c ∈ ["id", "_x9"], isValidName c = true) →
      dbGetTable (NewDatabase "d") "users" = none →
      CreateTable (NewDatabase "d") "users" ["id", "_x9"]
        = (dbAddTable (NewDatabase "d") "users" { Columns := ["id", "_x9"], Rows := [] },
           none)) :=
  ⟨(C3_identifier_validation (NewDatabase "d") "9bad" ["a"]).1,
   fun h1 h2 => (C3_identifier_validation (NewDatabase "d") "users" ["ok", "b d"]).2.1 h1 h2,
   fun h1 h2 h3 => (C3_identifier_validation (NewDatabase "d") "users" ["id", "_x9"]).2.2 h1 h2 h3⟩

/-- C4: inserting a row whose field names all lie among the declared columns
succeeds and appends the row at the end; inserting a row with any field not
among the declared columns fails with an unknown-column error naming an
offending field and leaves the database (hence the row sequence and its size)
unchanged. -/
theorem C4_insert_column_closure (db : Database) (tn : String) (tbl : Table)
    (data : Row) (h : dbGetTable db tn = some tbl) :
    ((∀ kv ∈ data, kv.1 ∈ tbl.Columns) →
      InsertInto db tn data
        = (dbSetTable db tn { tbl with Rows := tbl.Rows ++ [data] }, none))
    ∧ ((∃ kv ∈ data, kv.1 ∉ tbl.Columns) →
      (InsertInto db tn data).1 = db
      ∧ ∃ k ∈ rowKeys data, k ∉ tbl.Columns
          ∧ (InsertInto db tn data).2 = some (.columnDoesNotExist k tn)) := by
  constructor
  · intro hall
    have hfind : data.find? (fun kv => !containsStr tbl.Columns kv.1) = none := by
      rw [List.find?_eq_none]
      intro kv hkv
      simp [(containsStr_iff tbl.Columns kv.1).mpr (hall kv hkv)]
    simp [InsertInto, h, hfind]
  · intro hex
    have hsome : (data.find? (fun kv => !containsStr tbl.Columns kv.1)).isSome = true := by
      rw [List.find?_isSome]
      obtain ⟨kv, hkv, hnm⟩ := hex
      refine ⟨kv, hkv, ?_⟩
      have : containsStr tbl.Columns kv.1 = false := by
        cases hc : containsStr tbl.Columns kv.1
        · rfl
        · exact absurd ((containsStr_iff tbl.Columns kv.1).mp hc) hnm
      simp [this]
    obtain ⟨kv0, hkv0⟩ := Option.isSome_iff_exists.mp hsome
    have hnm : kv0.1 ∉ tbl.Columns := by
      have := List.find?_some hkv0
      simp only [Bool.not_eq_true'] at this
      intro hmem
      rw [(containsStr_iff tbl.Columns kv0.1).mpr hmem] at this
      simp at this
    have hmem : kv0 ∈ data := List.mem_of_find?_eq_some hkv0
    refine ⟨?_, kv0.1, List.mem_map_of_mem Prod.fst hmem, hnm, ?_⟩ <;>
      simp [InsertInto, h, hkv0]

/-- Witness for C4: a successful subset insert and a rejected unknown column. -/
theorem C4_insert_column_closure_witness :
    ((∀ kv ∈ ([("a", "7")] : Row), kv.1 ∈ tblW.Columns) →
      InsertInto dbW "t" [("a", "7")]
        = (dbSetTable dbW "t" { tblW with Rows := tblW.Rows ++ [[("a", "7")]] }, none))
    ∧ ((∃ kv ∈ ([("a", "7"), ("zz", "0")] : Row), kv.1 ∉ tblW.Columns) →
      (InsertInto dbW "t" [("a", "7"), ("zz", "0")]).1 = dbW
      ∧ ∃ k ∈ rowKeys [("a", "7"), ("zz", "0")], k ∉ tblW.Columns
          ∧ (InsertInto dbW "t" [("a", "7"), ("zz", "0")]).2
              = some (.columnDoesNotExist k "t")) :=
  ⟨(C4_insert_column_closure dbW "t" tblW [("a", "7")] (by decide)).1,
   (C4_insert_column_closure dbW "t" tblW [("a", "7"), ("zz", "0")] (by decide)).2⟩

/-- C5: UpdateData with new-values `{a: x}` rewrites only field `a`, and only
on the rows where the predicate holds: non-matching rows are returned
verbatim, and on matching rows every field other than `a` reads the same
before and after while `a` reads `x`; when the key is not a declared column
UpdateData fails with the unknown-column error and the database is unchanged. -/
theorem C5_update_field_scoping (db : Database) (tn : String) (tbl : Table)
    (cond : Row → Bool) (a x : String) (h : dbGetTable db tn = some tbl) :
    (a ∈ tbl.Columns →
      UpdateData db tn cond [(a, x)]
        = (dbSetTable db tn
            { tbl with Rows := tbl.Rows.map (fun r => if cond r then rowSet r a x else r) },
           none)
      ∧ (∀ r, cond r = true →
          rowGet (rowSet r a x) a = x
          ∧ ∀ c, c ≠ a → rowGet (rowSet r a x) c = rowGet r c))
    ∧ (a ∉ tbl.Columns →
      UpdateData db tn cond [(a, x)] = (db, some (.columnDoesNotExist a tn))) := by
  constructor
  · intro ha
    have hfind : ([(a, x)] : Row).find? (fun kv => !containsStr tbl.Columns kv.1)
        = none := by
      rw [List.find?_eq_none]
      intro kv hkv
      simp only [List.mem_singleton] at hkv
      subst hkv
      simp [(containsStr_iff tbl.Columns a).mpr ha]
    refine ⟨?_, ?_⟩
    · simp [UpdateData, h, hfind, updateRow]
    · intro r _
      exact ⟨rowGet_rowSet_self r a x, fun c hc => rowGet_rowSet_ne r a x c hc⟩
  · intro ha
    have hcf : containsStr tbl.Columns a = false := by
      cases hc : containsStr tbl.Columns a
      · rfl
      · exact absurd ((containsStr_iff tbl.Columns a).mp hc) ha
    simp [UpdateData, h, List.find?_cons, hcf]

/-- Witness for C5 at a concrete table, predicate and assignment. -/
theorem C5_update_field_scoping_witness :
    ((("a" : String) ∈ tblW.Columns →
      UpdateData dbW "t" (fun r => decide (rowGet r "b" = "x")) [("a", "9")]
        = (dbSetTable dbW "t"
            { tblW with Rows := tblW.Rows.map (fun r =>
                if decide (rowGet r "b" = "x") then rowSet r "a" "9" else r) },
           none)
      ∧ (∀ r, decide (rowGet r "b" = "x") = true →
          rowGet (rowSet r "a" "9") "a" = "9"
          ∧ ∀ c, c ≠ "a" → rowGet (rowSet r "a" "9") c = rowGet r c)))
    ∧ (("zz" : String) ∉ tblW.Columns →
      UpdateData dbW "t" (fun r => decide (rowGet r "b" = "x")) [("zz", "9")]
        = (dbW, some (.columnDoesNotExist "zz" "t"))) :=
  ⟨(C5_update_field_scoping dbW "t" tblW
      (fun r => decide (rowGet r "b" = "x")) "a" "9" (by decide)).1,
   (C5_update_field_scoping dbW "t" tblW
      (fun r => decide (rowGet r "b" = "x")) "zz" "9" (by decide)).2⟩

/-- C7 is false on the code: CreateTable accepts a column list containing the
same name twice, so a table with duplicate column names is reachable through
the public API. At the concrete input `CreateTable (NewDatabase "mydb") "t"
["a", "a"]` the call succeeds and stores the duplicate column list. -/
theorem C7_column_uniqueness_counterexample :
    (CreateTable (NewDatabase "mydb") "t" ["a", "a"]).2 = none
    ∧ dbGetTable (CreateTable (NewDatabase "mydb") "t" ["a", "a"]).1 "t"
        = some { Columns := ["a", "a"], Rows := [] }
    ∧ ¬ (["a", "a"] : List String).Nodup := by
  refine ⟨by decide, by decide, by decide⟩

/-- C7 amended: CreateTable validates the identifier grammar of the table
name and of every column, and the uniqueness of the table name, but it does
not check the pairwise uniqueness of the column names: with a valid name,
valid columns and no name collision it succeeds and stores the column list
verbatim, even when that list contains duplicates. -/
theorem C7_no_column_uniqueness_check (db : Database) (name : String)
    (cols : List String) (h1 : isValidName name = true)
    (h2 : ∀ c ∈ cols, isValidName c = true) (h3 : dbGetTable db name = none)
    (_h4 : ¬ cols.Nodup) :
    CreateTable db name cols
      = (dbAddTable db name { Columns := cols, Rows := [] }, none) := by
  have hfind : cols.find? (fun col => !isValidName col) = none := by
    rw [List.find?_eq_none]
    intro c hc
    simp [h2 c hc]
  simp [CreateTable, h1, hfind, h3]

/-- Witness for the amended C7: duplicate columns are accepted verbatim. -/
theorem C7_no_column_uniqueness_check_witness :
    isValidName "t" = true
    ∧ (∀ c ∈ ["a", "a"], isValidName c = true)
    ∧ dbGetTable (NewDatabase "mydb") "t" = none
    ∧ ¬ (["a", "a"] : List String).Nodup
    ∧ CreateTable (NewDatabase "mydb") "t" ["a", "a"]
        = (dbAddTable (NewDatabase "mydb") "t" { Columns := ["a", "a"], Rows := [] },
           none) :=
  ⟨by decide, by decide, by decide, by decide,
   C7_no_column_uniqueness_check (NewDatabase "mydb") "t" ["a", "a"]
     (by decide) (by decide) (by decide) (by decide)⟩

/-! Round-trip of Save and SelectTable (C2). -/

theorem rowGet_zip_foldl (cols : List String) (f : String → String) (r0 : Row)
    (c : String) :
    rowGet ((cols.zip (cols.map f)).foldl (fun r p => rowSet r p.1 p.2) r0) c
      = if c ∈ cols then f c else rowGet r0 c := by
  induction cols generalizing r0 with
  | nil => simp
  | cons c0 cs ih =>
    simp only [List.map_cons, List.zip_cons_cons, List.foldl_cons]
    rw [ih]
    by_cases hc : c ∈ cs
    · simp [hc]
    · by_cases hc0 : c = c0
      · subst hc0
        simp [hc, rowGet_rowSet_self]
      · simp [hc, hc0, rowGet_rowSet_ne r0 c0 (f c0) c hc0]

theorem rowGet_zipToRow (cols : List String) (f : String → String) (c : String)
    (hc : c ∈ cols) :
    rowGet (zipToRow cols (cols.map f)) c = f c := by
  rw [zipToRow, rowGet_zip_foldl cols f [] c, if_pos hc]

/-- C2: saving the database and then loading a table back by name
(`SelectTable` after `Save`, the codec transporting records verbatim) yields
a table with the same columns in the same order, the same number of rows in
the same order, and for every declared column the same string value on every
row; in particular a field missing from a stored row reads `""` before the
trip and is materialized as `""` after it. -/
theorem C2_save_load_roundtrip (db : Database) (tn : String) (tbl : Table)
    (h : db.Tables.find? (fun p => decide (p.1 = tn)) = some (tn, tbl)) :
    SelectTable (Save db) tn
      = .ok { Columns := tbl.Columns,
              Rows := tbl.Rows.map (fun r =>
                zipToRow tbl.Columns (tbl.Columns.map (fun c => rowGet r c))) }
    ∧ (tbl.Rows.map (fun r =>
        zipToRow tbl.Columns (tbl.Columns.map (fun c => rowGet r c)))).length
        = tbl.Rows.length
    ∧ (∀ (i : Nat) (c : String), c ∈ tbl.Columns →
        ((tbl.Rows.map (fun r =>
            zipToRow tbl.Columns (tbl.Columns.map (fun c => rowGet r c))))[i]?.map
          (fun r => rowGet r c))
        = tbl.Rows[i]?.map (fun r => rowGet r c)) := by
  have hfound : (Save db).find? (fun p => decide (p.1 = tn))
      = some (tn, saveTableRecords tbl) := by
    unfold Save
    rw [List.find?_map]
    have : ((fun p : String × List (List String) => decide (p.1 = tn)) ∘
        (fun p : String × Table => (p.1, saveTableRecords p.2)))
        = (fun p : String × Table => decide (p.1 = tn)) := rfl
    rw [this, h]
    rfl
  have hall : (tbl.Rows.map (fun row => tbl.Columns.map (fun col => rowGet row col))).all
      (fun r => r.length = tbl.Columns.length) = true := by
    simp [List.all_eq_true]
  refine ⟨?_, List.length_map _ _, ?_⟩
  · unfold SelectTable
    rw [hfound]
    simp only [saveTableRecords, hall, if_pos]
    rw [List.map_map]
    rfl
  · intro i c hc
    rw [List.getElem?_map]
    cases tbl.Rows[i]? with
    | none => rfl
    | some r =>
      simp only [Option.map_some']
      rw [rowGet_zipToRow tbl.Columns (fun c => rowGet r c) c hc]

/-- Witness for C2: the second row of `tblW` has no binding for column `b`,
and it round-trips with `b` bound to the empty string. -/
theorem C2_save_load_roundtrip_witness :
    dbW.Tables.find? (fun p => decide (p.1 = "t")) = some ("t", tblW)
    ∧ SelectTable (Save dbW) "t"
        = .ok { Columns := tblW.Columns,
                Rows := tblW.Rows.map (fun r =>
                  zipToRow tblW.Columns (tblW.Columns.map (fun c => rowGet r c))) }
    ∧ (∀ (i : Nat) (c : String), c ∈ tblW.Columns →
        ((tblW.Rows.map (fun r =>
            zipToRow tblW.Columns (tblW.Columns.map (fun c => rowGet r c))))[i]?.map
          (fun r => rowGet r c))
        = tblW.Rows[i]?.map (fun r => rowGet r c)) :=
  ⟨by decide,
   (C2_save_load_roundtrip dbW "t" tblW (by decide)).1,
   (C2_save_load_roundtrip dbW "t" tblW (by decide)).2.2⟩

/-- C8 fails on the code: the direct CRUD operations do follow the
database-then-table order (the Delete trace acquires and releases the locks
well-nested and never re-acquires a held lock), but Command locks the
database mutex and then dispatches to Database.Delete, which acquires the
same non-reentrant mutex again -- the dispatch attempts to acquire a lock the
execution already holds and blocks forever. -/
theorem C8_command_dispatch_self_deadlock :
    selfBlocks [] (deleteLockTrace "users") = false
    ∧ selfBlocks [] (commandDeleteLockTrace "users") = true := by
  constructor
  · rfl
  · rfl

/-- C6 is false on the code: for the concrete command `get from t where a=1`
on `dbW`, whose table `t` holds a row matching the condition, the execution
locks the database mutex on entering Command (src/main.go line 282) and then
calls SearchRows, which immediately attempts to acquire the same
non-reentrant mutex (src/main.go line 158) -- an acquisition of a lock the
execution already holds -- so Command blocks forever and the caller receives
neither the matched row sequence nor success; and because that re-acquisition
precedes the table-existence check, on a non-existing table the
table-not-found failure is likewise never returned. -/
theorem C6_get_returns_rows_counterexample :
    dbGetTable dbW "t" = some tblW
    ∧ tblW.Rows.filter (fun r => matchConditions r [("a", "1")])
        = [[("a", "1"), ("b", "x")]]
    ∧ selfBlocks [] (commandGetLockTrace "t") = true := by
  refine ⟨by decide, by decide, by decide⟩

/-- C6 amended: for a command `get from <table> where <conditions>`, Command
never returns anything to the caller: it locks the database mutex and then
dispatches to SearchRows, which re-acquires that same non-reentrant mutex
before even the table-existence check, so the execution blocks forever on
existing and non-existing tables alike.  A caller obtains the matched row
sequence only through the direct SearchRows API, whose lock sequence is
well-nested and which returns the ordered subsequence of rows satisfying the
predicate (and Command's code would in any case pass the rows only to
`fmt.Println`, its sole return value being the Go error). -/
theorem C6_command_get_self_deadlocks (t : String) (db : Database)
    (tbl : Table) (cond : Row → Bool) (h : dbGetTable db t = some tbl) :
    selfBlocks [] (commandGetLockTrace t) = true
    ∧ selfBlocks [] (searchRowsLockTrace t) = false
    ∧ SearchRows db t cond = .ok (tbl.Rows.filter cond) := by
  refine ⟨rfl, ?_, ?_⟩
  · simp [searchRowsLockTrace, selfBlocks]
  · simp [SearchRows, h]

/-- Witness for the amended C6 at a concrete table, database and predicate. -/
theorem C6_command_get_self_deadlocks_witness :
    dbGetTable dbW "t" = some tblW
    ∧ (selfBlocks [] (commandGetLockTrace "t") = true
      ∧ selfBlocks [] (searchRowsLockTrace "t") = false
      ∧ SearchRows dbW "t" (fun r => matchConditions r [("a", "1")])
          = .ok (tblW.Rows.filter (fun r => matchConditions r [("a", "1")]))) :=
  ⟨by decide,
   C6_command_get_self_deadlocks "t" dbW tblW
     (fun r => matchConditions r [("a", "1")]) (by decide)⟩

/-! Case-folding of the command interpreter (C10). -/

theorem char_eq_of_toNat_eq (c d : Char) (h : c.toNat = d.toNat) : c = d :=
  Char.eq_of_val_eq (UInt32.ext h)

theorem toNat_toLowerChar (c : Char) :
    (toLowerChar c).toNat
      = if 65 ≤ c.toNat ∧ c.toNat ≤ 90 then c.toNat + 32 else c.toNat := by
  unfold toLowerChar
  by_cases h : 65 ≤ c.toNat ∧ c.toNat ≤ 90
  · rw [if_pos h, if_pos h]
    have hv : (c.toNat + 32).isValidChar := by
      left
      omega
    rw [Char.ofNat, dif_pos hv]
    rfl
  · rw [if_neg h, if_neg h]

theorem toLowerChar_eq_self (c : Char) (h : ¬(65 ≤ c.toNat ∧ c.toNat ≤ 90)) :
    toLowerChar c = c := by
  unfold toLowerChar
  rw [if_neg h]

theorem toLowerChar_idem (c : Char) :
    toLowerChar (toLowerChar c) = toLowerChar c := by
  apply toLowerChar_eq_self
  rw [toNat_toLowerChar]
  by_cases h : 65 ≤ c.toNat ∧ c.toNat ≤ 90
  · rw [if_pos h]
    omega
  · rw [if_neg h]
    exact h

theorem isSpaceRE_toLowerChar (c : Char) :
    isSpaceRE (toLowerChar c) = isSpaceRE c := by
  rw [Bool.eq_iff_iff]
  simp only [isSpaceRE, Bool.or_eq_true, decide_eq_true_eq, toNat_toLowerChar]
  by_cases h : 65 ≤ c.toNat ∧ c.toNat ≤ 90
  · rw [if_pos h]
    omega
  · rw [if_neg h]

theorem isSpaceTrim_toLowerChar (c : Char) :
    isSpaceTrim (toLowerChar c) = isSpaceTrim c := by
  rw [Bool.eq_iff_iff]
  simp only [isSpaceTrim, Bool.or_eq_true, decide_eq_true_eq, toNat_toLowerChar]
  by_cases h : 65 ≤ c.toNat ∧ c.toNat ≤ 90
  · rw [if_pos h]
    omega
  · rw [if_neg h]

theorem toLowerChar_eq_space_iff (c : Char) :
    toLowerChar c = ' ' ↔ c = ' ' := by
  constructor
  · intro h
    have hn := congrArg Char.toNat h
    rw [toNat_toLowerChar] at hn
    have hsp : (' ' : Char).toNat = 32 := rfl
    apply char_eq_of_toNat_eq
    by_cases hr : 65 ≤ c.toNat ∧ c.toNat ≤ 90
    · rw [if_pos hr] at hn
      omega
    · rw [if_neg hr] at hn
      exact hn
  · intro h
    subst h
    apply toLowerChar_eq_self
    intro hr
    have hsp : (' ' : Char).toNat = 32 := rfl
    omega

theorem toLowerChars_idem (l : List Char) :
    toLowerChars (toLowerChars l) = toLowerChars l := by
  unfold toLowerChars
  rw [List.map_map]
  apply List.map_congr_left
  intro c _
  exact toLowerChar_idem c

theorem collapseAux_toLowerChars (b : Bool) (l : List Char) :
    collapseAux b (toLowerChars l) = toLowerChars (collapseAux b l) := by
  induction l generalizing b with
  | nil => rfl
  | cons c cs ih =>
    show collapseAux b (toLowerChar c :: toLowerChars cs) = _
    unfold collapseAux
    rw [isSpaceRE_toLowerChar]
    by_cases hs : isSpaceRE c
    · rw [if_pos hs, if_pos hs]
      by_cases hb : b
      · subst hb
        simp only [if_pos rfl]
        exact ih true
      · have hb' : b = false := Bool.eq_false_iff.mpr hb
        subst hb'
        simp only [Bool.false_eq_true, if_neg (Bool.false_ne_true)]
        show ' ' :: collapseAux true (toLowerChars cs)
          = toLowerChars (' ' :: collapseAux true cs)
        show _ = toLowerChar ' ' :: toLowerChars (collapseAux true cs)
        rw [ih true, toLowerChar_eq_self ' ' (by decide)]
    · rw [if_neg hs, if_neg hs]
      show toLowerChar c :: collapseAux false (toLowerChars cs)
        = toLowerChar c :: toLowerChars (collapseAux false cs)
      rw [ih false]

theorem goTrim_toLowerChars (l : List Char) :
    goTrim (toLowerChars l) = toLowerChars (goTrim l) := by
  have hcomp : (isSpaceTrim ∘ toLowerChar) = isSpaceTrim := by
    funext c
    exact isSpaceTrim_toLowerChar c
  unfold goTrim toLowerChars
  rw [List.dropWhile_map, hcomp, ← List.map_reverse, List.dropWhile_map, hcomp,
    ← List.map_reverse]

theorem normCommand_toLowerChars (cmd : String) :
    normCommand (String.mk (toLowerChars cmd.data))
      = toLowerChars (normCommand cmd) := by
  unfold normCommand collapseSpaces
  show goTrim (collapseAux false (toLowerChars cmd.data)) = _
  rw [collapseAux_toLowerChars, goTrim_toLowerChars]

theorem splitFirstSpace_toLowerChars (l : List Char) :
    splitFirstSpace (toLowerChars l)
      = (splitFirstSpace l).map (fun p => (toLowerChars p.1, toLowerChars p.2)) := by
  induction l with
  | nil => rfl
  | cons c cs ih =>
    show splitFirstSpace (toLowerChar c :: toLowerChars cs) = _
    unfold splitFirstSpace
    by_cases hc : c = ' '
    · rw [if_pos ((toLowerChar_eq_space_iff c).mpr hc), if_pos hc]
      rfl
    · rw [if_neg (fun h => hc ((toLowerChar_eq_space_iff c).mp h)), if_neg hc, ih]
      cases splitFirstSpace cs with
      | none => rfl
      | some p => rfl

/-- C10: the interpreter matches every pattern against a lowercased copy of
the whole (whitespace-normalized) input, so the table names, inserted values,
SET values and WHERE values it acts on are the lowercase-folded forms of what
the caller typed: a command behaves exactly like its lowercase-folded form in
its effect on the database, in what it prints, and in whether it succeeds
(only the raw text quoted inside `invalid ... command` error messages can
differ). In particular no value containing an uppercase letter can ever be
stored or matched through the command interface, although the direct CRUD
API is case-sensitive. -/
theorem C10_command_interpreter_lowercases (db : Database) (cmd : String) :
    (Command db (String.mk (toLowerChars cmd.data))).db = (Command db cmd).db
    ∧ (Command db (String.mk (toLowerChars cmd.data))).printed
        = (Command db cmd).printed
    ∧ (Command db (String.mk (toLowerChars cmd.data))).ret.isNone
        = (Command db cmd).ret.isNone := by
  unfold Command
  simp only [normCommand_toLowerChars, splitFirstSpace_toLowerChars]
  cases hs : splitFirstSpace (normCommand cmd) with
  | none => exact ⟨rfl, rfl, rfl⟩
  | some p =>
    simp only [Option.map_some']
    rw [toLowerChars_idem, toLowerChars_idem]
    refine ⟨rfl, rfl, ?_⟩
    cases (commandDispatch db (toLowerChars p.1) (toLowerChars (normCommand cmd))).err with
    | none => rfl
    | some e => cases e <;> rfl
